import Mathlib

/-!
# SpendWise tracker: verification of the transaction model

Shallow embedding of the SpendWise expense tracker: the client-side
aggregations from `src/App.tsx` (totals, category totals, monthly report,
CSV export) and the Express/SQLite endpoints from `server.ts`
(list, create, update, delete-one, delete-all over the `transactions`
table).

Amounts (`REAL` in SQLite, `number` in TypeScript) are modelled as
rationals; ids as naturals; dates, types and categories as strings, with a
nullable note.
-/

namespace SpendWise

/-- A transaction row, as stored in the `transactions` table and served to
the client (interface `Transaction` in `src/types.ts`). The server stores
the `type` field without validating it, so it is an arbitrary string here. -/
structure Transaction where
  id : Nat
  type : String
  amount : Rat
  category : String
  date : String
  note : Option String
deriving DecidableEq, Repr

/-- The accumulator shape of `totals` in `App.tsx`: `{ revenue, expense }`. -/
structure Totals where
  revenue : Rat
  expense : Rat
deriving DecidableEq, Repr

/-- `totals` from `App.tsx`: a reduce over the transaction list starting
from `{ revenue: 0, expense: 0 }`; a transaction whose type is `revenue`
adds its amount to `revenue`, any other transaction adds to `expense`. -/
def totals (transactions : List Transaction) : Totals :=
  transactions.foldl
    (fun acc t =>
      if t.type = "revenue" then { acc with revenue := acc.revenue + t.amount }
      else { acc with expense := acc.expense + t.amount })
    { revenue := 0, expense := 0 }

/-- Sum of the amounts of the transactions whose type is `ty`. -/
def sumAmounts (ty : String) (ts : List Transaction) : Rat :=
  ((ts.filter (fun t => t.type == ty)).map Transaction.amount).sum

/-- Sum of the amounts of the transactions whose type is not `revenue`. -/
def sumNonRevenue (ts : List Transaction) : Rat :=
  ((ts.filter (fun t => !(t.type == "revenue"))).map Transaction.amount).sum

theorem sumAmounts_cons (ty : String) (t : Transaction) (ts : List Transaction) :
    sumAmounts ty (t :: ts) =
      (if t.type = ty then t.amount else 0) + sumAmounts ty ts := by
  simp only [sumAmounts, List.filter_cons]
  by_cases h : t.type = ty <;> simp [h]

theorem sumNonRevenue_cons (t : Transaction) (ts : List Transaction) :
    sumNonRevenue (t :: ts) =
      (if t.type = "revenue" then 0 else t.amount) + sumNonRevenue ts := by
  simp only [sumNonRevenue, List.filter_cons]
  by_cases h : t.type = "revenue" <;> simp [h]

theorem totals_foldl (ts : List Transaction) (acc : Totals) :
    ts.foldl
      (fun acc t =>
        if t.type = "revenue" then { acc with revenue := acc.revenue + t.amount }
        else { acc with expense := acc.expense + t.amount })
      acc =
      { revenue := acc.revenue + sumAmounts "revenue" ts,
        expense := acc.expense + sumNonRevenue ts } := by
  induction ts generalizing acc with
  | nil => simp [sumAmounts, sumNonRevenue]
  | cons t ts ih =>
      rw [List.foldl_cons, ih, sumAmounts_cons, sumNonRevenue_cons]
      by_cases h : t.type = "revenue" <;> simp [h] <;> ring_nf

theorem sumNonRevenue_eq_expense (ts : List Transaction)
    (h : ∀ t ∈ ts, t.type = "expense" ∨ t.type = "revenue") :
    sumNonRevenue ts = sumAmounts "expense" ts := by
  induction ts with
  | nil => rfl
  | cons t ts ih =>
      rw [sumNonRevenue_cons, sumAmounts_cons,
        ih (fun u hu => h u (List.mem_cons_of_mem t hu))]
      rcases h t (List.mem_cons_self t ts) with he | hr
      · simp [he]
      · simp [hr]

/-- C1: for transaction lists where every type is `expense` or `revenue`,
the client-derived `totals` has `revenue` equal to the sum of the revenue
amounts and `expense` equal to the sum of the expense amounts. -/
theorem totals_correct (ts : List Transaction)
    (h : ∀ t ∈ ts, t.type = "expense" ∨ t.type = "revenue") :
    (totals ts).revenue = sumAmounts "revenue" ts ∧
      (totals ts).expense = sumAmounts "expense" ts := by
  unfold totals
  rw [totals_foldl, ← sumNonRevenue_eq_expense ts h]
  simp

/-- The JavaScript object update `map[c] = (map[c] || 0) + a`, on an
association list whose entries are kept in insertion order: add `a` to the
entry of key `c` in place, or append a fresh entry at the end. -/
def addTo : List (String × Rat) → String → Rat → List (String × Rat)
  | [], c, a => [(c, a)]
  | (k, v) :: rest, c, a =>
      if k = c then (k, v + a) :: rest else (k, v) :: addTo rest c a

/-- The `map` object built inside `categoryTotals` in `App.tsx`: for each
transaction with type `expense`, its amount is added to its category's
entry; other transactions are skipped. -/
def categoryTotalsMap (transactions : List Transaction) : List (String × Rat) :=
  transactions.foldl
    (fun m t => if t.type = "expense" then addTo m t.category t.amount else m) []

/-- `categoryTotals` in `App.tsx`: the entries of the category map, sorted
by amount in descending order. -/
def categoryTotals (transactions : List Transaction) : List (String × Rat) :=
  (categoryTotalsMap transactions).mergeSort (fun a b => decide (b.2 ≤ a.2))

/-- Sum of the amounts of the expense transactions with category `c`. -/
def expCatSum (c : String) (ts : List Transaction) : Rat :=
  ((ts.filter (fun t => t.type == "expense" && t.category == c)).map
    Transaction.amount).sum

/-- Whether some transaction is an expense with category `c`. -/
def hasExpCat (c : String) (ts : List Transaction) : Bool :=
  ts.any (fun t => t.type == "expense" && t.category == c)

theorem expCatSum_cons (c : String) (t : Transaction) (ts : List Transaction) :
    expCatSum c (t :: ts) =
      (if t.type = "expense" ∧ t.category = c then t.amount else 0) +
        expCatSum c ts := by
  simp only [expCatSum, List.filter_cons]
  by_cases h1 : t.type = "expense" <;> by_cases h2 : t.category = c <;>
    simp [h1, h2]

theorem hasExpCat_cons (c : String) (t : Transaction) (ts : List Transaction) :
    hasExpCat c (t :: ts) =
      ((t.type == "expense" && t.category == c) || hasExpCat c ts) := by
  simp [hasExpCat]

theorem lookup_cons {β : Type} (k : String) (v : β) (rest : List (String × β))
    (c : String) :
    List.lookup c ((k, v) :: rest) = if c = k then some v else List.lookup c rest := by
  by_cases h : c = k
  · subst h; simp [List.lookup]
  · have hb : (c == k) = false := by simpa using h
    simp [List.lookup, hb, h]

theorem lookup_addTo (m : List (String × Rat)) (c : String) (a : Rat)
    (c' : String) :
    (addTo m c a).lookup c' =
      if c' = c then some ((m.lookup c).getD 0 + a) else m.lookup c' := by
  induction m with
  | nil =>
      by_cases h : c' = c <;> simp [addTo, lookup_cons, h]
  | cons p rest ih =>
      obtain ⟨k, v⟩ := p
      by_cases hk : k = c
      · subst hk
        simp only [addTo, if_pos rfl]
        by_cases h : c' = k <;> simp [lookup_cons, h]
      · simp only [addTo, if_neg hk]
        have hck : ¬c = k := fun hh => hk hh.symm
        by_cases h : c' = k
        · subst h
          simp [lookup_cons, hk]
        · simp [lookup_cons, h, hck, ih]

theorem keys_addTo (m : List (String × Rat)) (c : String) (a : Rat) :
    (addTo m c a).map Prod.fst =
      if c ∈ m.map Prod.fst then m.map Prod.fst else m.map Prod.fst ++ [c] := by
  induction m with
  | nil => simp [addTo]
  | cons p rest ih =>
      obtain ⟨k, v⟩ := p
      by_cases hk : k = c
      · subst hk
        simp [addTo]
      · simp only [addTo, if_neg hk, List.map_cons, ih]
        have hck : ¬c = k := fun hh => hk hh.symm
        by_cases hc : c ∈ rest.map Prod.fst
        · simp [hc, hck]
        · simp [hc, hck]

theorem addTo_keys_nodup (m : List (String × Rat)) (c : String) (a : Rat)
    (h : (m.map Prod.fst).Nodup) : ((addTo m c a).map Prod.fst).Nodup := by
  rw [keys_addTo]
  by_cases hc : c ∈ m.map Prod.fst
  · simpa [hc] using h
  · rw [if_neg hc, List.nodup_append]
    exact ⟨h, List.nodup_singleton c, List.disjoint_singleton.mpr hc⟩

theorem categoryFold_lookup (ts : List Transaction)
    (m : List (String × Rat)) (c : String) :
    ((ts.foldl
        (fun m t => if t.type = "expense" then addTo m t.category t.amount else m)
        m).lookup c) =
      match m.lookup c with
      | some v => some (v + expCatSum c ts)
      | none => if hasExpCat c ts then some (expCatSum c ts) else none := by
  induction ts generalizing m with
  | nil =>
      cases h : m.lookup c <;> simp [expCatSum, hasExpCat, h]
  | cons t ts ih =>
      rw [List.foldl_cons]
      by_cases ht : t.type = "expense"
      · rw [if_pos ht, ih, lookup_addTo]
        by_cases hc : c = t.category
        · subst hc
          rw [if_pos rfl]
          have h1 : expCatSum t.category (t :: ts) =
              t.amount + expCatSum t.category ts := by
            rw [expCatSum_cons]; simp [ht]
          have h2 : hasExpCat t.category (t :: ts) = true := by
            rw [hasExpCat_cons]; simp [ht]
          rw [h1, h2]
          cases hm : m.lookup t.category <;> simp [hm, add_assoc]
        · have hcc : ¬t.category = c := fun hh => hc hh.symm
          rw [if_neg hc]
          have h1 : expCatSum c (t :: ts) = expCatSum c ts := by
            rw [expCatSum_cons]; simp [hcc]
          have h2 : hasExpCat c (t :: ts) = hasExpCat c ts := by
            rw [hasExpCat_cons]; simp [hcc]
          rw [h1, h2]
      · rw [if_neg ht, ih]
        have h1 : expCatSum c (t :: ts) = expCatSum c ts := by
          rw [expCatSum_cons]; simp [ht]
        have h2 : hasExpCat c (t :: ts) = hasExpCat c ts := by
          rw [hasExpCat_cons]; simp [ht]
        rw [h1, h2]

theorem categoryTotalsMap_lookup (ts : List Transaction) (c : String) :
    (categoryTotalsMap ts).lookup c =
      if hasExpCat c ts then some (expCatSum c ts) else none := by
  rw [categoryTotalsMap, categoryFold_lookup]
  simp [List.lookup]

theorem categoryTotalsMap_keys_nodup (ts : List Transaction) :
    ((categoryTotalsMap ts).map Prod.fst).Nodup := by
  rw [categoryTotalsMap]
  generalize hm : ([] : List (String × Rat)) = m
  have hnd : (m.map Prod.fst).Nodup := by rw [← hm]; simp
  clear hm
  induction ts generalizing m with
  | nil => exact hnd
  | cons t ts ih =>
      rw [List.foldl_cons]
      by_cases ht : t.type = "expense"
      · rw [if_pos ht]
        exact ih _ (addTo_keys_nodup _ _ _ hnd)
      · rw [if_neg ht]
        exact ih _ hnd

theorem mem_iff_lookup_of_nodup {β : Type} {m : List (String × β)}
    (h : (m.map Prod.fst).Nodup) (k : String) (v : β) :
    (k, v) ∈ m ↔ m.lookup k = some v := by
  induction m with
  | nil => simp
  | cons p rest ih =>
      obtain ⟨k', v'⟩ := p
      simp only [List.map_cons, List.nodup_cons] at h
      rw [lookup_cons]
      by_cases hk : k = k'
      · subst hk
        rw [if_pos rfl]
        simp only [List.mem_cons, Prod.mk.injEq, Option.some.injEq]
        constructor
        · rintro (⟨-, rfl⟩ | hmem)
          · rfl
          · exact absurd (List.mem_map_of_mem Prod.fst hmem) h.1
        · rintro rfl
          exact Or.inl (by simp)
      · rw [if_neg hk, ← ih h.2]
        simp [hk]

theorem hasExpCat_iff (c : String) (ts : List Transaction) :
    hasExpCat c ts = true ↔ ∃ t ∈ ts, t.type = "expense" ∧ t.category = c := by
  simp [hasExpCat]

/-- C3: a pair `(c, s)` appears among the derived per-category expense
totals exactly when some expense transaction has category `c` and `s` is
the sum of the amounts of the expense transactions with category `c`;
revenue transactions contribute to no entry, and a category with no
expense transaction has no entry. -/
theorem categoryTotals_correct (ts : List Transaction) (c : String) (s : Rat) :
    (c, s) ∈ categoryTotals ts ↔
      (∃ t ∈ ts, t.type = "expense" ∧ t.category = c) ∧ s = expCatSum c ts := by
  rw [categoryTotals, (List.mergeSort_perm (categoryTotalsMap ts) _).mem_iff,
    mem_iff_lookup_of_nodup (categoryTotalsMap_keys_nodup ts),
    categoryTotalsMap_lookup, ← hasExpCat_iff]
  by_cases h : hasExpCat c ts <;> simp [h, eq_comm]

/-- The per-month accumulator of `monthlyReport` in `App.tsx`:
`{ revenue, expense, categories }`. -/
structure MonthData where
  revenue : Rat
  expense : Rat
  categories : List (String × Rat)
deriving DecidableEq, Repr

/-- The body of the `forEach` in `monthlyReport`, applied to the data of
the transaction's own month: a `revenue` transaction adds to `revenue`,
any other transaction adds to `expense` and to its category's entry. -/
def updateMonth (d : MonthData) (t : Transaction) : MonthData :=
  if t.type = "revenue" then { d with revenue := d.revenue + t.amount }
  else { d with expense := d.expense + t.amount,
                categories := addTo d.categories t.category t.amount }

/-- The JavaScript update of `months[month]`: update the month's entry in
place, creating `{ revenue: 0, expense: 0, categories: {} }` first when the
month is absent (new months are appended in insertion order). -/
def monthUpsert : List (String × MonthData) → String → Transaction →
    List (String × MonthData)
  | [], k, t => [(k, updateMonth ⟨0, 0, []⟩ t)]
  | (k', d) :: rest, k, t =>
      if k' = k then (k', updateMonth d t) :: rest
      else (k', d) :: monthUpsert rest k t

/-- `t.date.substring(0, 7)`: the transaction's `YYYY-MM` month key. -/
def monthKey (t : Transaction) : String := t.date.take 7

/-- The `months` object built by `monthlyReport` in `App.tsx`. -/
def monthlyReportMap (transactions : List Transaction) :
    List (String × MonthData) :=
  transactions.foldl (fun m t => monthUpsert m (monthKey t) t) []

/-- `monthlyReport` in `App.tsx`: the entries of `months`, sorted by month
key in descending order. -/
def monthlyReport (transactions : List Transaction) :
    List (String × MonthData) :=
  (monthlyReportMap transactions).mergeSort (fun a b => decide (b.1 ≤ a.1))

/-- Folding a list of transactions into one month's data. -/
def monthExtend (d : MonthData) (l : List Transaction) : MonthData :=
  l.foldl updateMonth d

theorem lookup_monthUpsert (m : List (String × MonthData)) (k : String)
    (t : Transaction) (k' : String) :
    (monthUpsert m k t).lookup k' =
      if k' = k then some (updateMonth ((m.lookup k).getD ⟨0, 0, []⟩) t)
      else m.lookup k' := by
  induction m with
  | nil =>
      by_cases h : k' = k <;> simp [monthUpsert, lookup_cons, h]
  | cons p rest ih =>
      obtain ⟨k₀, d⟩ := p
      by_cases hk : k₀ = k
      · subst hk
        simp only [monthUpsert, if_pos rfl]
        by_cases h : k' = k₀ <;> simp [lookup_cons, h]
      · simp only [monthUpsert, if_neg hk]
        have hck : ¬k = k₀ := fun hh => hk hh.symm
        by_cases h : k' = k₀
        · subst h
          simp [lookup_cons, hk]
        · simp [lookup_cons, h, hck, ih]

theorem keys_monthUpsert (m : List (String × MonthData)) (k : String)
    (t : Transaction) :
    (monthUpsert m k t).map Prod.fst =
      if k ∈ m.map Prod.fst then m.map Prod.fst else m.map Prod.fst ++ [k] := by
  induction m with
  | nil => simp [monthUpsert]
  | cons p rest ih =>
      obtain ⟨k₀, d⟩ := p
      by_cases hk : k₀ = k
      · subst hk
        simp [monthUpsert]
      · simp only [monthUpsert, if_neg hk, List.map_cons, ih]
        have hck : ¬k = k₀ := fun hh => hk hh.symm
        by_cases hc : k ∈ rest.map Prod.fst
        · simp [hc, hck]
        · simp [hc, hck]

theorem monthUpsert_keys_nodup (m : List (String × MonthData)) (k : String)
    (t : Transaction) (h : (m.map Prod.fst).Nodup) :
    ((monthUpsert m k t).map Prod.fst).Nodup := by
  rw [keys_monthUpsert]
  by_cases hc : k ∈ m.map Prod.fst
  · simpa [hc] using h
  · rw [if_neg hc, List.nodup_append]
    exact ⟨h, List.nodup_singleton k, List.disjoint_singleton.mpr hc⟩

theorem monthFold_lookup (ts : List Transaction)
    (m : List (String × MonthData)) (k : String) :
    ((ts.foldl (fun m t => monthUpsert m (monthKey t) t) m).lookup k) =
      match m.lookup k with
      | some d => some (monthExtend d (ts.filter (fun t => monthKey t == k)))
      | none =>
          if ts.any (fun t => monthKey t == k)
          then some (monthExtend ⟨0, 0, []⟩ (ts.filter (fun t => monthKey t == k)))
          else none := by
  induction ts generalizing m with
  | nil =>
      cases h : m.lookup k <;> simp [monthExtend, h]
  | cons t ts ih =>
      rw [List.foldl_cons, ih, lookup_monthUpsert]
      by_cases hk : monthKey t = k
      · have hb : (monthKey t == k) = true := by simpa using hk
        rw [if_pos hk.symm]
        simp only [List.filter_cons, List.any_cons, hb, cond_true, Bool.true_or]
        have hext : ∀ d, monthExtend d (t :: ts.filter (fun u => monthKey u == k)) =
            monthExtend (updateMonth d t) (ts.filter (fun u => monthKey u == k)) :=
          fun d => rfl
        cases hm : m.lookup k
        · simp [hm, hext, hk]
        · simp [hm, hext, hk]
      · have hb : (monthKey t == k) = false := by simpa using hk
        have hkk : ¬k = monthKey t := fun hh => hk hh.symm
        rw [if_neg hkk]
        simp only [List.filter_cons, List.any_cons, hb, Bool.false_or]
        simp

theorem monthlyReportMap_lookup (ts : List Transaction) (k : String) :
    (monthlyReportMap ts).lookup k =
      if ts.any (fun t => monthKey t == k)
      then some (monthExtend ⟨0, 0, []⟩ (ts.filter (fun t => monthKey t == k)))
      else none := by
  rw [monthlyReportMap, monthFold_lookup]
  simp

theorem monthlyReportMap_keys_nodup (ts : List Transaction) :
    ((monthlyReportMap ts).map Prod.fst).Nodup := by
  rw [monthlyReportMap]
  generalize hm : ([] : List (String × MonthData)) = m
  have hnd : (m.map Prod.fst).Nodup := by rw [← hm]; simp
  clear hm
  induction ts generalizing m with
  | nil => exact hnd
  | cons t ts ih =>
      rw [List.foldl_cons]
      exact ih _ (monthUpsert_keys_nodup _ _ _ hnd)

theorem monthExtend_spec (l : List Transaction) (d : MonthData)
    (h : ∀ t ∈ l, t.type = "expense" ∨ t.type = "revenue") :
    monthExtend d l =
      { revenue := d.revenue + sumAmounts "revenue" l,
        expense := d.expense + sumAmounts "expense" l,
        categories :=
          l.foldl
            (fun m t => if t.type = "expense" then addTo m t.category t.amount else m)
            d.categories } := by
  induction l generalizing d with
  | nil => simp [monthExtend, sumAmounts]
  | cons t l ih =>
      have hl : ∀ u ∈ l, u.type = "expense" ∨ u.type = "revenue" :=
        fun u hu => h u (List.mem_cons_of_mem t hu)
      rw [monthExtend, List.foldl_cons, ← monthExtend, ih _ hl,
        List.foldl_cons, sumAmounts_cons, sumAmounts_cons]
      rcases h t (List.mem_cons_self t l) with he | hr
      · have hne : t.type ≠ "revenue" := by rw [he]; decide
        simp only [updateMonth, if_neg hne, he]
        simp [add_assoc, add_comm, add_left_comm]
      · have hne : t.type ≠ "expense" := by rw [hr]; decide
        simp only [updateMonth, if_pos hr, if_neg hne, hr]
        simp [add_assoc, add_comm, add_left_comm]

/-- C4: for transaction lists where every type is `expense` or `revenue`,
the monthly report has an entry for month key `k` (the first 7 characters
of the date, `YYYY-MM`) exactly when some transaction falls in that month,
and that entry's revenue and expense are the sums of that month's revenue
and expense amounts, while its category map is the per-category expense
total map of that month's transactions only. -/
theorem monthlyReport_correct (ts : List Transaction)
    (h : ∀ t ∈ ts, t.type = "expense" ∨ t.type = "revenue")
    (k : String) (d : MonthData) :
    (k, d) ∈ monthlyReport ts ↔
      (∃ t ∈ ts, monthKey t = k) ∧
      d = { revenue := sumAmounts "revenue" (ts.filter (fun t => monthKey t == k)),
            expense := sumAmounts "expense" (ts.filter (fun t => monthKey t == k)),
            categories := categoryTotalsMap (ts.filter (fun t => monthKey t == k)) } := by
  rw [monthlyReport, (List.mergeSort_perm (monthlyReportMap ts) _).mem_iff,
    mem_iff_lookup_of_nodup (monthlyReportMap_keys_nodup ts),
    monthlyReportMap_lookup]
  have hf : ∀ t ∈ ts.filter (fun t => monthKey t == k),
      t.type = "expense" ∨ t.type = "revenue" :=
    fun t ht => h t (List.mem_of_mem_filter ht)
  rw [monthExtend_spec _ _ hf]
  by_cases hany : ts.any (fun t => monthKey t == k)
  · rw [if_pos hany]
    have hex : ∃ t ∈ ts, monthKey t = k := by simpa using hany
    simp only [Option.some.injEq, hex, true_and, categoryTotalsMap, zero_add]
    exact eq_comm
  · rw [if_neg hany]
    have hex : ¬∃ t ∈ ts, monthKey t = k := by simpa using hany
    simp [hex]

/-- Lexicographic `≤` on character lists (by code point), written as a
structurally recursive boolean so that it evaluates: the order SQLite's
default `BINARY` collation gives ISO date strings. -/
def lexLe : List Char → List Char → Bool
  | [], _ => true
  | _ :: _, [] => false
  | a :: as, b :: bs =>
      if a < b then true else if b < a then false else lexLe as bs

theorem lexLe_iff_not_lex (x y : List Char) :
    lexLe x y = true ↔ ¬List.Lex (fun a b : Char => a < b) y x := by
  induction x generalizing y with
  | nil =>
      simp only [lexLe, true_iff]
      intro h
      cases y <;> cases h
  | cons a as ih =>
      cases y with
      | nil =>
          simp only [lexLe, Bool.false_eq_true, false_iff, not_not]
          exact List.Lex.nil
      | cons b bs =>
          by_cases hab : a < b
          · have hba : ¬b < a := lt_asymm hab
            simp only [lexLe, if_pos hab, true_iff]
            intro h
            cases h with
            | cons h' => exact absurd hab (lt_irrefl _)
            | rel h' => exact hba h'
          · by_cases hba : b < a
            · simp only [lexLe, if_neg hab, if_pos hba, Bool.false_eq_true,
                false_iff, not_not]
              exact List.Lex.rel hba
            · have heq : a = b := le_antisymm (le_of_not_lt hba) (le_of_not_lt hab)
              subst heq
              simp only [lexLe, if_neg hab, if_neg hba]
              rw [ih bs]
              constructor
              · intro h hlt
                cases hlt with
                | cons h' => exact h h'
                | rel h' => exact absurd h' hab
              · intro h hlt
                exact h (List.Lex.cons hlt)

/-- `lexLe` on the characters is exactly the linear order on strings. -/
theorem lexLe_iff (a b : String) : lexLe a.data b.data = true ↔ a ≤ b := by
  rw [String.le_iff_toList_le]
  have h1 : a.toList = a.data := rfl
  have h2 : b.toList = b.data := rfl
  rw [h1, h2, ← not_lt]
  exact lexLe_iff_not_lex a.data b.data

/-- JavaScript `s.startsWith(pre)`: the characters of `pre` are an initial
segment of the characters of `s`. -/
def jsStartsWith (s pre : String) : Bool :=
  pre.data.isPrefixOf s.data

/-- One data row of the CSV built by `handleExportCSV` in `App.tsx`:
the fields Date, Type, Category, Amount, Note. -/
structure CsvRow where
  date : String
  type : String
  category : String
  amount : Rat
  note : String
deriving DecidableEq, Repr

/-- The row `handleExportCSV` emits for a transaction; a missing note
renders as the empty string (`t.note || ''`). -/
def exportRow (t : Transaction) : CsvRow :=
  { date := t.date, type := t.type, category := t.category,
    amount := t.amount, note := t.note.getD "" }

/-- The header row of the exported CSV. -/
def csvHeaders : List String := ["Date", "Type", "Category", "Amount", "Note"]

/-- The data rows `handleExportCSV` exports for a month: one row for each
transaction whose date starts with the month string, in list order. -/
def handleExportCSVRows (transactions : List Transaction) (month : String) :
    List CsvRow :=
  (transactions.filter (fun t => jsStartsWith t.date month)).map exportRow

/-- The data rows as claim C2 states them: one row per transaction of the
month whose type is `expense`, in list order, and no other row. -/
def monthExpenseRowsSpec (month : String) : List Transaction → List CsvRow
  | [] => []
  | t :: ts =>
      if jsStartsWith t.date month ∧ t.type = "expense"
      then exportRow t :: monthExpenseRowsSpec month ts
      else monthExpenseRowsSpec month ts

/-- The data rows as amended: one row per transaction of the month, of
either type, in list order, and no other row. -/
def monthRowsSpec (month : String) : List Transaction → List CsvRow
  | [] => []
  | t :: ts =>
      if jsStartsWith t.date month
      then exportRow t :: monthRowsSpec month ts
      else monthRowsSpec month ts

/-- C2 fails on the code: a revenue transaction dated inside the month is
exported, although the claim says only the month's expenses produce rows. -/
theorem handleExportCSV_not_expenses_only :
    handleExportCSVRows
        [{ id := 1, type := "revenue", amount := 50, category := "Salary",
           date := "2024-01-15", note := none }] "2024-01" ≠
      monthExpenseRowsSpec "2024-01"
        [{ id := 1, type := "revenue", amount := 50, category := "Salary",
           date := "2024-01-15", note := none }] := by
  decide

/-- C2 (amended): the CSV data rows are exactly the given month's
transactions of either type — one row (Date, Type, Category, Amount, Note)
per transaction whose date starts with the month string, in order, and no
row for any other transaction. -/
theorem handleExportCSVRows_correct (transactions : List Transaction)
    (month : String) :
    handleExportCSVRows transactions month = monthRowsSpec month transactions := by
  induction transactions with
  | nil => rfl
  | cons t ts ih =>
      rw [handleExportCSVRows, List.filter_cons]
      by_cases h : jsStartsWith t.date month = true
      · rw [if_pos h, List.map_cons, monthRowsSpec, if_pos h]
        rw [handleExportCSVRows] at ih
        rw [ih]
      · rw [if_neg h, monthRowsSpec, if_neg h]
        rw [handleExportCSVRows] at ih
        rw [ih]

/-- The parsed JSON body of a create/update request: exactly the five
fields `server.ts` destructures from `req.body`. -/
structure Body where
  type : String
  amount : Rat
  category : String
  date : String
  note : Option String
deriving DecidableEq, Repr

/-- The SQLite `transactions` table: its rows in storage order, plus the
next id the `AUTOINCREMENT` primary key will assign. SQLite guarantees
every id ever assigned is below `nextId`, which is the `rows_id_lt_nextId`
invariant used below. -/
structure TableState where
  rows : List Transaction
  nextId : Nat
deriving DecidableEq, Repr

/-- The `AUTOINCREMENT` invariant: every stored id is below the next id. -/
def rowsIdLtNextId (s : TableState) : Prop :=
  ∀ r ∈ s.rows, r.id < s.nextId

/-- A SQL `DELETE FROM transactions` with a `WHERE` predicate `p`: the
remaining rows, and the `info.changes` count of deleted rows. -/
def sqlDeleteWhere (rows : List Transaction) (p : Transaction → Bool) :
    List Transaction × Nat :=
  (rows.filter (fun r => !p r), (rows.filter p).length)

/-- `GET /api/transactions`: `SELECT * FROM transactions ORDER BY date
DESC`, the full table sorted by date in descending binary (lexicographic)
order. -/
def getTransactions (s : TableState) : List Transaction :=
  s.rows.mergeSort (fun a b => lexLe b.date.data a.date.data)

/-- `POST /api/transactions`: insert a row built from the submitted body
with the auto-assigned id, and respond with `{ id: lastInsertRowid,
...req.body }`. -/
def createTransaction (s : TableState) (b : Body) : TableState × Transaction :=
  let row : Transaction :=
    { id := s.nextId, type := b.type, amount := b.amount,
      category := b.category, date := b.date, note := b.note }
  ({ rows := s.rows ++ [row], nextId := s.nextId + 1 }, row)

/-- `PUT /api/transactions/:id`: `UPDATE transactions SET type = ?,
amount = ?, category = ?, date = ?, note = ? WHERE id = ?`, then respond
with `{ id: Number(id), ...req.body }`. -/
def updateTransaction (s : TableState) (i : Nat) (b : Body) :
    TableState × Transaction :=
  ({ s with
      rows := s.rows.map (fun r =>
        if r.id = i then
          { id := r.id, type := b.type, amount := b.amount,
            category := b.category, date := b.date, note := b.note }
        else r) },
   { id := i, type := b.type, amount := b.amount, category := b.category,
     date := b.date, note := b.note })

/-- The JSON responses of `DELETE /api/transactions/:id`: either status 404
with a message, or status 200 with `success`. -/
inductive DeleteOneResponse where
  | err (status : Nat) (message : String)
  | ok (status : Nat) (success : Bool)
deriving DecidableEq, Repr

/-- `DELETE /api/transactions/:id`: `DELETE FROM transactions WHERE
id = ?`; a zero `changes` count yields 404 `Transaction not found`,
otherwise 200 with success. -/
def deleteTransaction (s : TableState) (i : Nat) :
    TableState × DeleteOneResponse :=
  let res := sqlDeleteWhere s.rows (fun r => r.id == i)
  ({ s with rows := res.1 },
   if res.2 = 0 then .err 404 "Transaction not found" else .ok 200 true)

/-- The JSON response of the bulk `DELETE /api/transactions`. -/
structure BulkDeleteResponse where
  status : Nat
  success : Bool
  changes : Nat
deriving DecidableEq, Repr

/-- Bulk `DELETE /api/transactions`: `DELETE FROM transactions` with no
`WHERE`, then 200 with `{ success: true, changes: info.changes }`. -/
def deleteAllTransactions (s : TableState) : TableState × BulkDeleteResponse :=
  let res := sqlDeleteWhere s.rows (fun _ => true)
  ({ s with rows := res.1 }, { status := 200, success := true, changes := res.2 })

/-- C5: the update endpoint fully replaces every field of the row with the
given id — the stored type, amount, category, date and note all become the
body's values while the id stays `i` — and, position by position, every row
whose id differs from `i` is unchanged. -/
theorem updateTransaction_frame (s : TableState) (i : Nat) (b : Body) (j : Nat) :
    ((updateTransaction s i b).1.rows)[j]? =
      (s.rows[j]?).map (fun r =>
        if r.id = i then
          { id := i, type := b.type, amount := b.amount,
            category := b.category, date := b.date, note := b.note }
        else r) := by
  rw [updateTransaction]
  simp only [List.getElem?_map]
  cases s.rows[j]? with
  | none => rfl
  | some r =>
      by_cases h : r.id = i <;> simp [h]

/-- C6: the bulk delete endpoint empties the table and reports success with
`changes` equal to the number of rows the table held before the call. -/
theorem deleteAllTransactions_correct (s : TableState) :
    (deleteAllTransactions s).1.rows = [] ∧
      (deleteAllTransactions s).2.success = true ∧
      (deleteAllTransactions s).2.changes = s.rows.length ∧
      (deleteAllTransactions s).2.status = 200 := by
  refine ⟨?_, rfl, ?_, rfl⟩
  · rw [deleteAllTransactions]
    simp [sqlDeleteWhere]
  · rw [deleteAllTransactions]
    simp [sqlDeleteWhere]

/-- C8: the list endpoint returns the full dataset, with no pagination or
truncation: the result is a permutation of the stored rows, so it has one
element for each row, counted with multiplicity. -/
theorem getTransactions_complete (s : TableState) :
    (getTransactions s).Perm s.rows ∧
      (getTransactions s).length = s.rows.length ∧
      ∀ r : Transaction, (getTransactions s).count r = s.rows.count r := by
  have hp : (getTransactions s).Perm s.rows := List.mergeSort_perm s.rows _
  exact ⟨hp, hp.length_eq, fun r => hp.count_eq r⟩

/-- C10: the list endpoint's result is sorted by the date string in
descending lexicographic order: each element's date is `≥` (in the string
order) every later element's date. -/
theorem getTransactions_sorted (s : TableState) :
    (getTransactions s).Pairwise (fun a b => b.date ≤ a.date) := by
  have htrans : ∀ a b c : Transaction,
      lexLe b.date.data a.date.data = true →
      lexLe c.date.data b.date.data = true →
      lexLe c.date.data a.date.data = true := by
    intro a b c h1 h2
    rw [lexLe_iff] at h1 h2 ⊢
    exact le_trans h2 h1
  have htotal : ∀ a b : Transaction,
      (lexLe b.date.data a.date.data || lexLe a.date.data b.date.data) = true := by
    intro a b
    rcases le_total b.date a.date with h | h
    · rw [Bool.or_eq_true, lexLe_iff]
      exact Or.inl h
    · rw [Bool.or_eq_true, lexLe_iff, lexLe_iff]
      exact Or.inr h
  have hp := List.sorted_mergeSort htrans htotal s.rows
  rw [getTransactions]
  refine hp.imp ?_
  intro a b hab
  rw [lexLe_iff] at hab
  exact hab

/-- C7: create assigns `nextId` as the new row's id regardless of the body,
that id differs from every stored id (under the `AUTOINCREMENT` invariant,
which is preserved), the submitted fields are stored and echoed with the
new id as submitted — for any body whatsoever, so no type or amount
validation happens. -/
theorem createTransaction_correct (s : TableState) (b b' : Body)
    (hinv : rowsIdLtNextId s) :
    (createTransaction s b).2.id = s.nextId ∧
      (createTransaction s b).2.id = (createTransaction s b').2.id ∧
      (∀ r ∈ s.rows, r.id ≠ (createTransaction s b).2.id) ∧
      (createTransaction s b).1.rows =
        s.rows ++ [{ id := s.nextId, type := b.type, amount := b.amount,
                     category := b.category, date := b.date, note := b.note }] ∧
      (createTransaction s b).2 =
        { id := s.nextId, type := b.type, amount := b.amount,
          category := b.category, date := b.date, note := b.note } ∧
      rowsIdLtNextId (createTransaction s b).1 := by
  refine ⟨rfl, rfl, ?_, rfl, rfl, ?_⟩
  · intro r hr
    exact Nat.ne_of_lt (hinv r hr)
  · intro r hr
    rcases List.mem_append.mp hr with hmem | hmem
    · exact Nat.lt_succ_of_lt (hinv r hmem)
    · rcases List.mem_singleton.mp hmem with rfl
      exact Nat.lt_succ_self _

theorem filter_ne_id (l : List Transaction) (i : Nat)
    (h : ∀ r ∈ l, r.id ≠ i) : l.filter (fun r => !(r.id == i)) = l := by
  rw [List.filter_eq_self]
  intro r hr
  simpa using h r hr

theorem filter_id_eq_nil_iff (l : List Transaction) (i : Nat) :
    l.filter (fun r => r.id == i) = [] ↔ ∀ r ∈ l, r.id ≠ i := by
  rw [List.filter_eq_nil_iff]
  simp

/-- C9: the single-row delete endpoint responds 404 `Transaction not found`
exactly when no stored row has the requested id, and then the table is
unchanged; when a row with that id exists (ids are unique, as the table's
primary key guarantees), the response is 200 success and exactly that row
is removed, every other row staying in place. -/
theorem deleteTransaction_correct (s : TableState) (i : Nat)
    (hnodup : (s.rows.map Transaction.id).Nodup) :
    ((deleteTransaction s i).2 = .err 404 "Transaction not found" ↔
        ∀ r ∈ s.rows, r.id ≠ i) ∧
      ((∀ r ∈ s.rows, r.id ≠ i) → (deleteTransaction s i).1 = s) ∧
      (∀ r₀ ∈ s.rows, r₀.id = i →
        (deleteTransaction s i).2 = .ok 200 true ∧
        ∃ l₁ l₂, s.rows = l₁ ++ r₀ :: l₂ ∧
          (deleteTransaction s i).1.rows = l₁ ++ l₂ ∧
          ∀ r ∈ l₁ ++ l₂, r.id ≠ i) := by
  have hresp : (deleteTransaction s i).2 =
      if (s.rows.filter (fun r => r.id == i)).length = 0
      then DeleteOneResponse.err 404 "Transaction not found"
      else DeleteOneResponse.ok 200 true := rfl
  have hrows : (deleteTransaction s i).1.rows =
      s.rows.filter (fun r => !(r.id == i)) := rfl
  refine ⟨?_, ?_, ?_⟩
  · rw [hresp]
    by_cases hz : (s.rows.filter (fun r => r.id == i)).length = 0
    · rw [if_pos hz]
      rw [List.length_eq_zero, filter_id_eq_nil_iff] at hz
      simpa using hz
    · rw [if_neg hz]
      constructor
      · intro h
        cases h
      · intro hall
        exact absurd (by rw [List.length_eq_zero, filter_id_eq_nil_iff]; exact hall) hz
  · intro hall
    show ({ s with rows := s.rows.filter (fun r => !(r.id == i)) } : TableState) = s
    rw [filter_ne_id _ _ hall]
  · intro r₀ hmem hid
    constructor
    · have hfmem : r₀ ∈ s.rows.filter (fun r => r.id == i) :=
        List.mem_filter.mpr ⟨hmem, by simpa using hid⟩
      have hz : (s.rows.filter (fun r => r.id == i)).length ≠ 0 := by
        intro hzero
        rw [List.length_eq_zero] at hzero
        rw [hzero] at hfmem
        cases hfmem
      rw [hresp, if_neg hz]
    · obtain ⟨l₁, l₂, hsplit⟩ := List.append_of_mem hmem
      have hids : ((l₁.map Transaction.id) ++ r₀.id :: (l₂.map Transaction.id)).Nodup := by
        rw [hsplit] at hnodup
        simpa using hnodup
      rw [List.nodup_append] at hids
      have hnotin₂ : r₀.id ∉ l₂.map Transaction.id :=
        (List.nodup_cons.mp hids.2.1).1
      have hnotin₁ : r₀.id ∉ l₁.map Transaction.id := by
        intro hin
        exact hids.2.2 hin (List.mem_cons_self _ _)
      have h1 : ∀ r ∈ l₁, r.id ≠ i := by
        intro r hr hri
        apply hnotin₁
        have hrr : r₀.id = r.id := by rw [hid, hri]
        rw [hrr]
        exact List.mem_map_of_mem _ hr
      have h2 : ∀ r ∈ l₂, r.id ≠ i := by
        intro r hr hri
        apply hnotin₂
        have hrr : r₀.id = r.id := by rw [hid, hri]
        rw [hrr]
        exact List.mem_map_of_mem _ hr
      refine ⟨l₁, l₂, hsplit, ?_, ?_⟩
      · rw [hrows, hsplit, List.filter_append, List.filter_cons]
        have hb : (!(r₀.id == i)) = false := by simpa using hid
        rw [hb, if_neg (by simp), filter_ne_id _ _ h1, filter_ne_id _ _ h2]
      · intro r hr
        rcases List.mem_append.mp hr with h | h
        · exact h1 r h
        · exact h2 r h

/-- A sample stored expense row for the concrete witnesses. -/
def rowFood : Transaction := ⟨1, "expense", 5, "Food", "2024-01-15", none⟩

/-- A sample stored revenue row for the concrete witnesses. -/
def rowSalary : Transaction := ⟨2, "revenue", 7, "Salary", "2024-01-20", none⟩

/-- An unvalidated request body (bad type, negative amount). -/
def bodyWeird : Body := ⟨"weird", -3, "Stuff", "not-a-date", some "n"⟩

/-- A well-formed revenue request body. -/
def bodySalary : Body := ⟨"revenue", 7, "Salary", "2024-02-20", none⟩

/-- Witness for C1 at a concrete two-transaction list. -/
theorem totals_correct_witness :
    (∀ t ∈ [rowFood, rowSalary], t.type = "expense" ∨ t.type = "revenue") ∧
      ((totals [rowFood, rowSalary]).revenue =
          sumAmounts "revenue" [rowFood, rowSalary] ∧
        (totals [rowFood, rowSalary]).expense =
          sumAmounts "expense" [rowFood, rowSalary]) :=
  ⟨by decide, totals_correct [rowFood, rowSalary] (by decide)⟩

/-- Witness for C4 at a concrete one-transaction list. -/
theorem monthlyReport_correct_witness :
    (∀ t ∈ [rowFood], t.type = "expense" ∨ t.type = "revenue") ∧
      (("2024-01", (⟨0, 5, [("Food", 5)]⟩ : MonthData)) ∈ monthlyReport [rowFood] ↔
        (∃ t ∈ [rowFood], monthKey t = "2024-01") ∧
          (⟨0, 5, [("Food", 5)]⟩ : MonthData) =
            { revenue :=
                sumAmounts "revenue"
                  ([rowFood].filter (fun t => monthKey t == "2024-01")),
              expense :=
                sumAmounts "expense"
                  ([rowFood].filter (fun t => monthKey t == "2024-01")),
              categories :=
                categoryTotalsMap
                  ([rowFood].filter (fun t => monthKey t == "2024-01")) }) :=
  ⟨by decide,
    monthlyReport_correct [rowFood] (by decide) "2024-01" ⟨0, 5, [("Food", 5)]⟩⟩

/-- Witness for C7 at a concrete table and two concrete bodies, one of them
with an invalid type and a negative amount. -/
theorem createTransaction_correct_witness :
    rowsIdLtNextId ⟨[rowFood], 2⟩ ∧
      ((createTransaction ⟨[rowFood], 2⟩ bodyWeird).2.id = 2 ∧
        (createTransaction ⟨[rowFood], 2⟩ bodyWeird).2.id =
          (createTransaction ⟨[rowFood], 2⟩ bodySalary).2.id ∧
        (∀ r ∈ [rowFood], r.id ≠ (createTransaction ⟨[rowFood], 2⟩ bodyWeird).2.id) ∧
        (createTransaction ⟨[rowFood], 2⟩ bodyWeird).1.rows =
          [rowFood] ++ [{ id := 2, type := "weird", amount := -3,
                          category := "Stuff", date := "not-a-date",
                          note := some "n" }] ∧
        (createTransaction ⟨[rowFood], 2⟩ bodyWeird).2 =
          { id := 2, type := "weird", amount := -3, category := "Stuff",
            date := "not-a-date", note := some "n" } ∧
        rowsIdLtNextId (createTransaction ⟨[rowFood], 2⟩ bodyWeird).1) :=
  ⟨by unfold rowsIdLtNextId; decide,
    createTransaction_correct ⟨[rowFood], 2⟩ bodyWeird bodySalary
      (by unfold rowsIdLtNextId; decide)⟩

/-- Witness for C9 at a concrete two-row table, deleting id 1. -/
theorem deleteTransaction_correct_witness :
    (([rowFood, rowSalary].map Transaction.id).Nodup) ∧
      (((deleteTransaction ⟨[rowFood, rowSalary], 3⟩ 1).2 =
            .err 404 "Transaction not found" ↔
          ∀ r ∈ [rowFood, rowSalary], r.id ≠ 1) ∧
        ((∀ r ∈ [rowFood, rowSalary], r.id ≠ 1) →
          (deleteTransaction ⟨[rowFood, rowSalary], 3⟩ 1).1 =
            ⟨[rowFood, rowSalary], 3⟩) ∧
        (∀ r₀ ∈ [rowFood, rowSalary], r₀.id = 1 →
          (deleteTransaction ⟨[rowFood, rowSalary], 3⟩ 1).2 = .ok 200 true ∧
          ∃ l₁ l₂, [rowFood, rowSalary] = l₁ ++ r₀ :: l₂ ∧
            (deleteTransaction ⟨[rowFood, rowSalary], 3⟩ 1).1.rows = l₁ ++ l₂ ∧
            ∀ r ∈ l₁ ++ l₂, r.id ≠ 1)) :=
  ⟨by decide, deleteTransaction_correct ⟨[rowFood, rowSalary], 3⟩ 1 (by decide)⟩

end SpendWise
